import Mathlib

/-
Verification development for the arr-sheets-downloader script
(src/arr-sheets-downloader.py).

Strings are modelled as `List Char` where character-level reasoning is
needed, with `String` wrappers matching the Python function signatures.
Python's `str.split(sep)` (for a nonempty separator) is modelled by
`pySplit`, substring containment (`sub in s`) by `containsL`, and
`str.startswith` by `startsWithL`.  The network-facing functions are
modelled as pure functions over a `World` record holding every service
response, and they additionally return the list of API calls they issue,
so that claims about which requests are (not) made can be stated.
Operations that can raise in Python (list-index errors, tuple-unpacking
errors, `int()` conversion errors) return `Except Unit`.
-/

deriving instance DecidableEq for Except

/-- Python `s.startswith(p)` for character lists. -/
def startsWithL : List Char → List Char → Bool
  | _, [] => true
  | [], _ :: _ => false
  | c :: s, d :: t => c == d && startsWithL s t

/-- Python substring containment `sub in s` for character lists. -/
def containsL : List Char → List Char → Bool
  | [], sub => startsWithL [] sub
  | c :: rest, sub => startsWithL (c :: rest) sub || containsL rest sub

/-- Python `sub in s` at the `String` level. -/
def strContains (s sub : String) : Bool :=
  containsL s.toList sub.toList

/-- Fuelled worker for Python `s.split(sep)` with nonempty separator
`b :: t`: scan left to right, cut at each non-overlapping occurrence of
the separator.  The fuel only serves to make the recursion structural;
`pySplit` supplies enough fuel for the fallback `[s]` arm to be
unreachable. -/
def pySplitF (b : Char) (t : List Char) : Nat → List Char → List (List Char)
  | _, [] => [[]]
  | 0, s => [s]
  | n + 1, c :: rest =>
    if startsWithL (c :: rest) (b :: t) then
      [] :: pySplitF b t n (rest.drop t.length)
    else
      match pySplitF b t n rest with
      | [] => [[c]]
      | p :: ps => (c :: p) :: ps

/-- Python `s.split(sep)` for the nonempty separator `b :: t`. -/
def pySplit (b : Char) (t : List Char) (s : List Char) : List (List Char) :=
  pySplitF b t s.length s

/-- Python `sep.join(parts)`. -/
def joinSep (sep : List Char) : List (List Char) → List Char
  | [] => []
  | [x] => x
  | x :: y :: rest => x ++ sep ++ joinSep sep (y :: rest)

/-- Marker checked by `get_tmdb_id` and `main` for movie URLs. -/
def movieMark : List Char := "themoviedb.org/movie/".toList

/-- Marker checked by `get_tmdb_id` and `main` for TV URLs. -/
def tvMark : List Char := "themoviedb.org/tv/".toList

/-- Model of `get_tmdb_id` (script lines 97-102) over character lists.
`url.split('/movie/')[1]` raises `IndexError` when the split yields fewer
than two parts, so the function returns `Except`; the error arm is in
fact unreachable (proved below), because the guard
`'themoviedb.org/movie/' in url` forces at least one occurrence of
`'/movie/'`. -/
def getTmdbIdL (url : List Char) : Except Unit (Option (List Char)) :=
  if containsL url movieMark then
    match pySplit '/' "movie/".toList url with
    | _ :: second :: _ => Except.ok (some ((pySplit '-' [] second).headD []))
    | _ => Except.error ()
  else if containsL url tvMark then
    match pySplit '/' "tv/".toList url with
    | _ :: second :: _ => Except.ok (some ((pySplit '-' [] second).headD []))
    | _ => Except.error ()
  else
    Except.ok none

/-- `get_tmdb_id` at the `String` level.  The `Except.error` arm is
unreachable (the extractor never raises, proved below), so it is safe to
collapse it to `none` for use by the orchestrator model. -/
def get_tmdb_id (url : String) : Option String :=
  match getTmdbIdL url.toList with
  | Except.ok (some l) => some (String.mk l)
  | Except.ok none => none
  | Except.error _ => none

/-- Model of `format_date` (script lines 76-78): Python
`date_str[:10] if date_str else ""`, where `date_str` may be `None`
(absent JSON field) or a string, and both `None` and `""` are falsy.
Python slices by characters, hence the `List.take` on `toList`. -/
def format_date (date_str : Option String) : String :=
  match date_str with
  | none => ""
  | some s => if s = "" then "" else String.mk (s.toList.take 10)

/-- Model of `get_output_range` (script lines 68-73), parameterised by the
configured `RANGE_NAME`.  The Python tuple unpacking
`sheet_name, cell_part = RANGE_NAME.split('!')` raises `ValueError`
unless the split yields exactly two parts, hence the `Except`.
`start_row` keeps exactly the digit characters of the part before `':'`,
and the result hard-codes columns `B` and `C`. -/
def get_output_range (range_name : String) : Except Unit String :=
  match pySplit '!' [] range_name.toList with
  | [sheet_name, cell_part] =>
    Except.ok (String.mk
      (sheet_name ++ '!' :: 'B' :: ((pySplit ':' [] cell_part).headD []).filter Char.isDigit
        ++ [':', 'C']))
  | _ => Except.error ()

/-- Write-back range as the spec's words describe it (for comparison with
`get_output_range`): same sheet name, same start row, and the two columns
adjacent to the read column (the next column and the one after it). -/
def spec_output_range (sheet : String) (col : Char) (row : String) : String :=
  sheet ++ "!" ++ String.mk [Char.ofNat (col.toNat + 1)] ++ row
    ++ ":" ++ String.mk [Char.ofNat (col.toNat + 2)]

/-- ASCII whitespace stripped by Python's `int()` conversion. -/
def isPySpace (c : Char) : Bool :=
  c == ' ' || c == '\t' || c == '\n' || c == '\r' || c == '\x0B' || c == '\x0C'

/-- Digit run with single underscores allowed between digits, as accepted
after the leading digit by Python's `int()` literal syntax. -/
def digitsUnd : List Char → Bool
  | [] => true
  | '_' :: c :: rest => c.isDigit && digitsUnd rest
  | c :: rest => c.isDigit && digitsUnd rest

/-- Whether Python's `int(s)` succeeds (ASCII fragment): optional
surrounding whitespace, an optional sign, then digits with single
underscores between them.  `add_to_radarr` calls `int(tmdb_id)` and an
invalid literal raises `ValueError`. -/
def pyIntValid (s : List Char) : Bool :=
  match ((s.dropWhile isPySpace).reverse.dropWhile isPySpace).reverse with
  | '+' :: r => (match r with | c :: rest => c.isDigit && digitsUnd rest | [] => false)
  | '-' :: r => (match r with | c :: rest => c.isDigit && digitsUnd rest | [] => false)
  | c :: rest => c.isDigit && digitsUnd rest
  | [] => false

/-- Round half to even, which is how Python's `f"{x:.0f}"` rounds; the
script only applies it to the episode-completion percentage, modelled as
an exact rational. -/
def roundHalfEven (q : ℚ) : ℤ :=
  if q - Rat.floor q < 1/2 then Rat.floor q
  else if 1/2 < q - Rat.floor q then Rat.floor q + 1
  else if Rat.floor q % 2 = 0 then Rat.floor q else Rat.floor q + 1

/-- The executable `Rat.floor` agrees with Mathlib's `⌊·⌋`. -/
theorem ratFloor_eq (q : ℚ) : Rat.floor q = ⌊q⌋ := by
  rw [Rat.floor_def', Rat.floor_def]

example : roundHalfEven (456/10 : ℚ) = 46 := by
  have h : ⌊(456/10 : ℚ)⌋ = 45 := by
    rw [Int.floor_eq_iff]
    norm_num
  rw [roundHalfEven, ratFloor_eq, h]
  norm_num
example : (toString (46 : ℤ)) = "46" := by decide

example : get_tmdb_id "https://www.themoviedb.org/movie/603-the-matrix" = some "603" := by decide
example : get_tmdb_id "https://www.themoviedb.org/tv/1396-breaking-bad" = some "1396" := by decide
example : get_tmdb_id "https://example.com/x" = none := by decide
example : get_tmdb_id "themoviedb.org/movie/" = some "" := by decide
example : get_tmdb_id "themoviedb.org/movie/123/credits" = some "123/credits" := by decide

/-- One JSON object of Radarr's `GET /movie?tmdbId=` inventory response
(the fields the script reads; `.get` on absent `hasFile` is falsy, so a
Bool; `digitalRelease` may be absent). -/
structure MovieEntry where
  hasFile : Bool
  digitalRelease : Option String
deriving DecidableEq

/-- One JSON object of Sonarr's `GET /series/lookup?term=tmdb:` response.
The script indexes `['tvdbId']` and `['title']` directly; those fields are
always present in Sonarr lookup results, so they are plain record fields. -/
structure SeriesLookupEntry where
  title : String
  firstAired : Option String
  tvdbId : Nat
deriving DecidableEq

/-- The `statistics` object of a Sonarr series; `percentOfEpisodes` is
read with `.get('percentOfEpisodes', 0)` and modelled as an exact
rational. -/
structure SeriesStats where
  percentOfEpisodes : Option ℚ
deriving DecidableEq

/-- One JSON object of Sonarr's `GET /series?tvdbId=` inventory response;
`statistics` is read with `.get('statistics', {})`. -/
structure SeriesEntry where
  statistics : Option SeriesStats
deriving DecidableEq

/-- Requests the script can issue to the two library managers and the
spreadsheet write endpoint (used to state which calls a run performs). -/
inductive ApiCall where
  | radarrGet (tmdbId : String)
  | radarrLookup (tmdbId : String)
  | radarrAdd (tmdbId : String)
  | sonarrLookup (tmdbId : String)
  | sonarrSeriesGet (tvdbId : Nat)
  | sonarrAdd (tmdbId : String)
  | sheetWrite (rows : List (List String))
deriving DecidableEq

/-- The external world the script talks to: every service response,
keyed by the request parameter.  The script is single-threaded and each
endpoint is deterministic within one run. -/
structure World where
  /-- Result of the spreadsheet `values().get(...)` call; `HttpError` is
  the error case. -/
  sheetRead : Except Unit (List (List String))
  /-- Body of `GET {RADARR_URL}/movie?tmdbId=...`. -/
  radarrMovies : String → List MovieEntry
  /-- Status code of `GET {RADARR_URL}/movie/lookup/tmdb?tmdbId=...`. -/
  radarrLookupCode : String → Nat
  /-- `digitalRelease` field of the Radarr lookup body. -/
  radarrLookupRelease : String → Option String
  /-- Status code of `POST {RADARR_URL}/movie`. -/
  radarrAddCode : String → Nat
  /-- Body of `GET {SONARR_URL}/series/lookup?term=tmdb:...`. -/
  sonarrLookup : String → List SeriesLookupEntry
  /-- Status code of the same Sonarr lookup request. -/
  sonarrLookupCode : String → Nat
  /-- Body of `GET {SONARR_URL}/series?tvdbId=...`. -/
  sonarrSeries : Nat → List SeriesEntry
  /-- Status code of `POST {SONARR_URL}/series`. -/
  sonarrAddCode : String → Nat
  /-- Result of the spreadsheet `values().update(...)` call. -/
  writeOutcome : Except Unit Unit

/-- Model of `get_google_sheets_data` (script lines 58-65): an `HttpError`
is caught, logged and turned into `[]`. -/
def get_google_sheets_data (w : World) : List (List String) :=
  match w.sheetRead with
  | Except.ok values => values
  | Except.error _ => []

/-- Model of `update_sheet_statuses` (script lines 81-93): issues the
write request; an `HttpError` is caught and only logged, so both outcomes
return normally. -/
def update_sheet_statuses (w : World) (rows : List (List String)) :
    List ApiCall × Unit :=
  ([ApiCall.sheetWrite rows],
    match w.writeOutcome with
    | Except.ok u => u
    | Except.error _ => ())

/-- Model of `get_radarr_status` (script lines 106-116), returning the
issued calls plus the Python triple `(in_radarr, status, release_date)`
(`status` is `none` when the movie is not in Radarr). -/
def get_radarr_status (w : World) (tmdb_id : String) :
    List ApiCall × Bool × Option String × String :=
  match w.radarrMovies tmdb_id with
  | [] =>
    ([ApiCall.radarrGet tmdb_id, ApiCall.radarrLookup tmdb_id], false, none,
      if w.radarrLookupCode tmdb_id == 200
      then format_date (w.radarrLookupRelease tmdb_id) else "")
  | movie :: _ =>
    ([ApiCall.radarrGet tmdb_id], true,
      some (if movie.hasFile then "Downloaded" else "Monitored"),
      format_date movie.digitalRelease)

/-- Model of `get_sonarr_status` (script lines 120-136).  Note the
script's inverted flag in the no-match case: it returns
`(True, "Not Found", "")`, so the caller does not attempt an add. -/
def get_sonarr_status (w : World) (tmdb_id : String) :
    List ApiCall × Bool × Option String × String :=
  match w.sonarrLookup tmdb_id with
  | [] => ([ApiCall.sonarrLookup tmdb_id], true, some "Not Found", "")
  | first :: _ =>
    let first_aired := format_date first.firstAired
    match w.sonarrSeries first.tvdbId with
    | [] =>
      ([ApiCall.sonarrLookup tmdb_id, ApiCall.sonarrSeriesGet first.tvdbId],
        false, none, first_aired)
    | s :: _ =>
      let pct := ((s.statistics.getD { percentOfEpisodes := none }).percentOfEpisodes).getD 0
      ([ApiCall.sonarrLookup tmdb_id, ApiCall.sonarrSeriesGet first.tvdbId], true,
        some (if pct = 100 then "Downloaded"
          else if pct > 0 then "Partial (" ++ toString (roundHalfEven pct) ++ "%)"
          else "Monitored"),
        first_aired)

/-- Model of `add_to_radarr` (script lines 140-151).  Building the payload
evaluates `int(tmdb_id)`, which raises `ValueError` on a non-numeric
identifier before any request is made; otherwise the `POST` is issued and
success is `status_code == 201`. -/
def add_to_radarr (w : World) (tmdb_id : String) :
    Except Unit (List ApiCall × Bool) :=
  if pyIntValid tmdb_id.toList then
    Except.ok ([ApiCall.radarrAdd tmdb_id], w.radarrAddCode tmdb_id == 201)
  else
    Except.error ()

/-- Model of `add_to_sonarr` (script lines 155-172): a fresh lookup; the
`POST` happens only when the lookup returns 200 with a nonempty body, and
success is `status_code == 201`. -/
def add_to_sonarr (w : World) (tmdb_id : String) : List ApiCall × Bool :=
  if w.sonarrLookupCode tmdb_id == 200 && !(w.sonarrLookup tmdb_id).isEmpty then
    ([ApiCall.sonarrLookup tmdb_id, ApiCall.sonarrAdd tmdb_id],
      w.sonarrAddCode tmdb_id == 201)
  else
    ([ApiCall.sonarrLookup tmdb_id], false)

/-- The movie arm of `main`'s dispatch (script lines 192-202): on a miss,
try to add and report "Monitored"/"Failed to Add"; on a hit keep the
status from `get_radarr_status`.  The release date is whatever
`get_radarr_status` returned in both cases. -/
def handle_movie (w : World) (tmdb_id : String) :
    Except Unit (List ApiCall × String × String) :=
  let r := get_radarr_status w tmdb_id
  if !r.2.1 then
    match add_to_radarr w tmdb_id with
    | Except.error e => Except.error e
    | Except.ok (addCalls, added) =>
      Except.ok (r.1 ++ addCalls,
        (if added then "Monitored" else "Failed to Add"), r.2.2.2)
  else
    Except.ok (r.1, (r.2.2.1).getD "", r.2.2.2)

/-- The series arm of `main`'s dispatch (script lines 203-213), mirroring
`handle_movie`. -/
def handle_tv (w : World) (tmdb_id : String) : List ApiCall × String × String :=
  let r := get_sonarr_status w tmdb_id
  if !r.2.1 then
    let a := add_to_sonarr w tmdb_id
    (r.1 ++ a.1, (if a.2 then "Monitored" else "Failed to Add"), r.2.2.2)
  else
    (r.1, (r.2.2.1).getD "", r.2.2.2)

/-- One iteration of `main`'s loop (script lines 181-218): blank row, or a
URL with a falsy extracted identifier (`None` or `""`), appends
`["", ""]` without touching either library; otherwise dispatch on which
marker the URL contains.  The final `else` arm is unreachable because a
non-`none` extraction implies one of the markers is present. -/
def process_link (w : World) (link : List String) :
    Except Unit (List ApiCall × List String) :=
  match link with
  | [] => Except.ok ([], ["", ""])
  | url :: _ =>
    match get_tmdb_id url with
    | none => Except.ok ([], ["", ""])
    | some tmdb_id =>
      if tmdb_id = "" then Except.ok ([], ["", ""])
      else if strContains url "themoviedb.org/movie/" then
        match handle_movie w tmdb_id with
        | Except.error e => Except.error e
        | Except.ok (calls, status, date) => Except.ok (calls, [status, date])
      else if strContains url "themoviedb.org/tv/" then
        match handle_tv w tmdb_id with
        | (calls, status, date) => Except.ok (calls, [status, date])
      else
        Except.ok ([], ["", ""])

/-- `main`'s loop over all sheet rows, accumulating issued calls and the
output rows in order; an uncaught exception aborts the whole run. -/
def process_links (w : World) : List (List String) →
    Except Unit (List ApiCall × List (List String))
  | [] => Except.ok ([], [])
  | link :: rest =>
    match process_link w link with
    | Except.error e => Except.error e
    | Except.ok (calls, row) =>
      match process_links w rest with
      | Except.error e => Except.error e
      | Except.ok (calls2, rows) => Except.ok (calls ++ calls2, row :: rows)

/-- Model of `main` (script lines 176-221): read the sheet, process every
row, and write the collected rows back only when at least one row was
produced.  (Named `main_run` because `main` is reserved for executable
entry points.) -/
def main_run (w : World) : Except Unit (List ApiCall × List (List String)) :=
  let links := get_google_sheets_data w
  match process_links w links with
  | Except.error e => Except.error e
  | Except.ok (calls, rows) =>
    if rows.isEmpty then Except.ok (calls, rows)
    else Except.ok (calls ++ (update_sheet_statuses w rows).1, rows)

/-- A baseline world: empty sheet, empty inventories, failing lookups. -/
def wEmpty : World where
  sheetRead := Except.ok []
  radarrMovies := fun _ => []
  radarrLookupCode := fun _ => 404
  radarrLookupRelease := fun _ => none
  radarrAddCode := fun _ => 500
  sonarrLookup := fun _ => []
  sonarrLookupCode := fun _ => 200
  sonarrSeries := fun _ => []
  sonarrAddCode := fun _ => 500
  writeOutcome := Except.ok ()

example : process_link wEmpty ["themoviedb.org/tv/9-x"] =
    Except.ok ([ApiCall.sonarrLookup "9"], ["Not Found", ""]) := by decide
example : process_link wEmpty ["themoviedb.org/movie/x5"] = Except.error () := by decide
example : process_link wEmpty [] = Except.ok ([], ["", ""]) := by decide

theorem pySplitF_nil (b : Char) (t : List Char) (n : Nat) :
    pySplitF b t n [] = [[]] := by
  cases n <;> rfl

theorem pySplitF_zero (b : Char) (t : List Char) (c : Char) (rest : List Char) :
    pySplitF b t 0 (c :: rest) = [c :: rest] := rfl

theorem pySplitF_succ (b : Char) (t : List Char) (n : Nat) (c : Char)
    (rest : List Char) :
    pySplitF b t (n + 1) (c :: rest) =
      if startsWithL (c :: rest) (b :: t) then
        [] :: pySplitF b t n (rest.drop t.length)
      else
        match pySplitF b t n rest with
        | [] => [[c]]
        | p :: ps => (c :: p) :: ps := rfl

/-- The fuel does not matter as long as it is at least the input length. -/
theorem pySplitF_fuel (b : Char) (t : List Char) :
    ∀ n m s, s.length ≤ n → s.length ≤ m → pySplitF b t n s = pySplitF b t m s := by
  intro n
  induction n with
  | zero =>
    intro m s h1 _
    have hs : s = [] := List.eq_nil_of_length_eq_zero (Nat.le_zero.mp h1)
    subst hs
    rw [pySplitF_nil, pySplitF_nil]
  | succ n ih =>
    intro m s h1 h2
    cases s with
    | nil => rw [pySplitF_nil, pySplitF_nil]
    | cons c rest =>
      have h1' : rest.length ≤ n := by simpa using h1
      obtain ⟨m', rfl⟩ : ∃ m', m = m' + 1 := by
        refine ⟨m - 1, ?_⟩
        have : 1 ≤ m := le_trans (by simp) h2
        omega
      have h2' : rest.length ≤ m' := by simpa using h2
      rw [pySplitF_succ, pySplitF_succ]
      cases hsw : startsWithL (c :: rest) (b :: t)
      case false =>
        simp only [Bool.false_eq_true, if_false]
        rw [ih m' rest h1' h2']
      case true =>
        simp only [if_true]
        have hd : (rest.drop t.length).length ≤ n := by
          rw [List.length_drop]; omega
        have hd' : (rest.drop t.length).length ≤ m' := by
          rw [List.length_drop]; omega
        rw [ih m' _ hd hd']

theorem pySplit_nil (b : Char) (t : List Char) : pySplit b t [] = [[]] := rfl

/-- One-step unfolding of `pySplit` on a nonempty input. -/
theorem pySplit_cons (b : Char) (t : List Char) (c : Char) (rest : List Char) :
    pySplit b t (c :: rest) =
      if startsWithL (c :: rest) (b :: t) then
        [] :: pySplit b t (rest.drop t.length)
      else
        match pySplit b t rest with
        | [] => [[c]]
        | p :: ps => (c :: p) :: ps := by
  show pySplitF b t (rest.length + 1) (c :: rest) = _
  rw [pySplitF_succ]
  cases hsw : startsWithL (c :: rest) (b :: t)
  case false => simp only [Bool.false_eq_true, if_false]; rfl
  case true =>
    simp only [if_true]
    exact congrArg (List.cons [])
      (pySplitF_fuel b t rest.length (rest.drop t.length).length _
        (by rw [List.length_drop]; omega) le_rfl)

theorem pySplitF_ne_nil (b : Char) (t : List Char) :
    ∀ n s, pySplitF b t n s ≠ [] := by
  intro n
  induction n with
  | zero =>
    intro s
    cases s
    · rw [pySplitF_nil]; simp
    · rw [pySplitF_zero]; simp
  | succ n ih =>
    intro s
    cases s with
    | nil => rw [pySplitF_nil]; simp
    | cons c rest =>
      rw [pySplitF_succ]
      cases hsw : startsWithL (c :: rest) (b :: t)
      case true => simp
      case false =>
        simp only [Bool.false_eq_true, if_false]
        cases hps : pySplitF b t n rest <;> simp
  
theorem pySplit_ne_nil (b : Char) (t : List Char) (s : List Char) :
    pySplit b t s ≠ [] :=
  pySplitF_ne_nil b t s.length s

/-- `startsWithL` means the pattern is a prefix. -/
theorem startsWithL_iff (p : List Char) :
    ∀ s, startsWithL s p = true ↔ ∃ q, s = p ++ q := by
  induction p with
  | nil =>
    intro s
    simp only [List.nil_append]
    exact ⟨fun _ => ⟨s, rfl⟩, fun _ => by cases s <;> rfl⟩
  | cons d p ih =>
    intro s
    cases s with
    | nil =>
      constructor
      · intro h; exact absurd h (by rw [startsWithL]; simp)
      · rintro ⟨q, hq⟩; exact absurd hq (by simp)
    | cons c s' =>
      rw [startsWithL]
      simp only [Bool.and_eq_true, beq_iff_eq, ih, List.cons_append,
        List.cons.injEq]
      constructor
      · rintro ⟨rfl, q, rfl⟩; exact ⟨q, rfl, rfl⟩
      · rintro ⟨q, rfl, rfl⟩; exact ⟨rfl, q, rfl⟩

theorem startsWithL_append (s p r : List Char) (h : startsWithL s p = true) :
    startsWithL (s ++ r) p = true := by
  rw [startsWithL_iff] at h ⊢
  obtain ⟨q, rfl⟩ := h
  exact ⟨q ++ r, by simp⟩

theorem startsWithL_drop (s p : List Char) (h : startsWithL s p = true) :
    p ++ s.drop p.length = s := by
  rw [startsWithL_iff] at h
  obtain ⟨q, rfl⟩ := h
  rw [List.drop_left]

/-- `containsL` means the pattern occurs somewhere inside. -/
theorem containsL_iff (sub : List Char) :
    ∀ s, containsL s sub = true ↔ ∃ pre post, s = pre ++ sub ++ post := by
  intro s
  induction s with
  | nil =>
    rw [containsL, startsWithL_iff]
    constructor
    · rintro ⟨q, hq⟩; exact ⟨[], q, by simpa using hq⟩
    · rintro ⟨pre, post, hp⟩
      refine ⟨post, ?_⟩
      have : pre = [] ∧ sub ++ post = [] := by
        constructor <;> [skip; skip] <;> simp_all [List.append_eq_nil]
      simpa [this.1] using hp
  | cons c rest ih =>
    rw [containsL]
    simp only [Bool.or_eq_true, startsWithL_iff, ih]
    constructor
    · rintro (⟨q, hq⟩ | ⟨pre, post, hp⟩)
      · exact ⟨[], q, by simpa using hq⟩
      · exact ⟨c :: pre, post, by simp [hp]⟩
    · rintro ⟨pre, post, hp⟩
      cases pre with
      | nil => exact Or.inl ⟨post, by simpa using hp⟩
      | cons x pre' =>
        simp only [List.cons_append, List.cons.injEq] at hp
        exact Or.inr ⟨pre', post, hp.2⟩

/-- For a single-character pattern, containment is membership. -/
theorem containsL_singleton (c : Char) (s : List Char) :
    containsL s [c] = true ↔ c ∈ s := by
  rw [containsL_iff]
  constructor
  · rintro ⟨pre, post, rfl⟩; simp
  · intro h
    obtain ⟨pre, post, rfl⟩ := List.append_of_mem h
    exact ⟨pre, post, by simp⟩

/-- Containment of a concatenation implies containment of its right part. -/
theorem containsL_of_append (s a b2 : List Char)
    (h : containsL s (a ++ b2) = true) : containsL s b2 = true := by
  rw [containsL_iff] at h ⊢
  obtain ⟨pre, post, rfl⟩ := h
  exact ⟨pre ++ a, post, by simp⟩

theorem joinSep_cons_cons (sep : List Char) (c : Char) (p : List Char)
    (ps : List (List Char)) :
    joinSep sep ((c :: p) :: ps) = c :: joinSep sep (p :: ps) := by
  cases ps <;> simp [joinSep]

/-- Splitting and rejoining with the separator reproduces the input
(Python: `sep.join(s.split(sep)) == s`). -/
theorem joinSep_pySplitF (b : Char) (t : List Char) :
    ∀ n s, joinSep (b :: t) (pySplitF b t n s) = s := by
  intro n
  induction n with
  | zero =>
    intro s
    cases s
    · rw [pySplitF_nil]; rfl
    · rw [pySplitF_zero]; rfl
  | succ n ih =>
    intro s
    cases s with
    | nil => rw [pySplitF_nil]; rfl
    | cons c rest =>
      rw [pySplitF_succ]
      cases hsw : startsWithL (c :: rest) (b :: t)
      case true =>
        simp only [if_true]
        cases hps : pySplitF b t n (rest.drop t.length) with
        | nil => exact absurd hps (pySplitF_ne_nil b t n _)
        | cons p ps =>
          show [] ++ (b :: t) ++ joinSep (b :: t) (p :: ps) = c :: rest
          rw [← hps, ih]
          have := startsWithL_drop (c :: rest) (b :: t) hsw
          simpa using this
      case false =>
        simp only [Bool.false_eq_true, if_false]
        cases hps : pySplitF b t n rest with
        | nil => exact absurd hps (pySplitF_ne_nil b t n _)
        | cons p ps =>
          rw [joinSep_cons_cons, ← hps, ih]

theorem joinSep_pySplit (b : Char) (t : List Char) (s : List Char) :
    joinSep (b :: t) (pySplit b t s) = s :=
  joinSep_pySplitF b t s.length s

/-- If the separator occurs, the split has at least two parts. -/
theorem pySplitF_two (b : Char) (t : List Char) :
    ∀ n s, s.length ≤ n → containsL s (b :: t) = true →
      2 ≤ (pySplitF b t n s).length := by
  intro n
  induction n with
  | zero =>
    intro s h1 h2
    have hs : s = [] := List.eq_nil_of_length_eq_zero (Nat.le_zero.mp h1)
    subst hs
    rw [containsL] at h2
    exact absurd h2 (by rw [startsWithL]; simp)
  | succ n ih =>
    intro s h1 h2
    cases s with
    | nil =>
      rw [containsL] at h2
      exact absurd h2 (by rw [startsWithL]; simp)
    | cons c rest =>
      have h1' : rest.length ≤ n := by simpa using h1
      rw [pySplitF_succ]
      rw [containsL, Bool.or_eq_true] at h2
      cases hsw : startsWithL (c :: rest) (b :: t)
      case true =>
        simp only [if_true, List.length_cons]
        have := pySplitF_ne_nil b t n (rest.drop t.length)
        have hpos := List.length_pos.mpr this
        omega
      case false =>
        simp only [Bool.false_eq_true, if_false]
        rw [hsw] at h2
        have h2' : containsL rest (b :: t) = true := by simpa using h2
        have := ih rest h1' h2'
        cases hps : pySplitF b t n rest with
        | nil => exact absurd hps (pySplitF_ne_nil b t n _)
        | cons p ps =>
          rw [hps] at this
          simp only [List.length_cons] at this ⊢
          omega

theorem pySplit_two (b : Char) (t : List Char) (s : List Char)
    (h : containsL s (b :: t) = true) : 2 ≤ (pySplit b t s).length :=
  pySplitF_two b t s.length s le_rfl h

/-- The first part of a split is the separator-free run before the first
occurrence: the input is the head plus a remainder that is empty or
starts with the separator. -/
theorem pySplitF_head (b : Char) (t : List Char) :
    ∀ n s, s.length ≤ n →
      ∃ r, s = (pySplitF b t n s).headD [] ++ r ∧
        containsL ((pySplitF b t n s).headD []) (b :: t) = false ∧
        (r = [] ∨ startsWithL r (b :: t) = true) := by
  intro n
  induction n with
  | zero =>
    intro s h1
    have hs : s = [] := List.eq_nil_of_length_eq_zero (Nat.le_zero.mp h1)
    subst hs
    rw [pySplitF_nil]
    exact ⟨[], rfl, by simp [containsL, startsWithL], Or.inl rfl⟩
  | succ n ih =>
    intro s h1
    cases s with
    | nil =>
      rw [pySplitF_nil]
      exact ⟨[], rfl, by simp [containsL, startsWithL], Or.inl rfl⟩
    | cons c rest =>
      have h1' : rest.length ≤ n := by simpa using h1
      rw [pySplitF_succ]
      cases hsw : startsWithL (c :: rest) (b :: t)
      case true =>
        simp only [if_true, List.headD_cons]
        exact ⟨c :: rest, rfl, by simp [containsL, startsWithL], Or.inr hsw⟩
      case false =>
        simp only [Bool.false_eq_true, if_false]
        obtain ⟨r, hr1, hr2, hr3⟩ := ih rest h1'
        cases hps : pySplitF b t n rest with
        | nil => exact absurd hps (pySplitF_ne_nil b t n _)
        | cons p ps =>
          rw [hps] at hr1 hr2
          simp only [List.headD_cons] at hr1 hr2 ⊢
          refine ⟨r, by simp [hr1], ?_, hr3⟩
          rw [containsL, Bool.or_eq_false_iff]
          refine ⟨?_, hr2⟩
          cases hswp : startsWithL (c :: p) (b :: t)
          · rfl
          · exfalso
            have h2 := startsWithL_append (c :: p) (b :: t) r hswp
            rw [show (c :: p) ++ r = c :: rest by simp [hr1]] at h2
            rw [hsw] at h2
            exact absurd h2 (by simp)

theorem pySplit_head (b : Char) (t : List Char) (s : List Char) :
    ∃ r, s = (pySplit b t s).headD [] ++ r ∧
      containsL ((pySplit b t s).headD []) (b :: t) = false ∧
      (r = [] ∨ startsWithL r (b :: t) = true) :=
  pySplitF_head b t s.length s le_rfl

/-- Splitting on a character that does not occur yields one part. -/
theorem pySplit_single_none (c : Char) :
    ∀ y, c ∉ y → pySplit c [] y = [y] := by
  intro y
  induction y with
  | nil => intro _; rfl
  | cons d rest ih =>
    intro h
    have hd : ¬c = d ∧ c ∉ rest := by simpa using h
    rw [pySplit_cons]
    have hsw : startsWithL (d :: rest) [c] = false := by
      rw [startsWithL]
      simp [startsWithL, beq_iff_eq]
      exact fun hh => hd.1 hh.symm
    simp only [hsw, Bool.false_eq_true, if_false]
    rw [ih hd.2]

/-- Splitting `x ++ c :: y` on a single character `c` occurring in neither
side yields exactly `[x, y]`. -/
theorem pySplit_single_pair (c : Char) :
    ∀ x y, c ∉ x → c ∉ y → pySplit c [] (x ++ c :: y) = [x, y] := by
  intro x
  induction x with
  | nil =>
    intro y _ hy
    rw [List.nil_append, pySplit_cons]
    have hsw : startsWithL (c :: y) [c] = true := by
      rw [startsWithL]
      simp [startsWithL]
    simp only [hsw, if_true, List.length_nil, List.drop_zero]
    rw [pySplit_single_none c y hy]
  | cons a x' ih =>
    intro y hx hy
    have ha : ¬c = a ∧ c ∉ x' := by simpa using hx
    rw [List.cons_append, pySplit_cons]
    have hsw : startsWithL (a :: (x' ++ c :: y)) [c] = false := by
      rw [startsWithL]
      simp [startsWithL, beq_iff_eq]
      exact fun hh => ha.1 hh.symm
    simp only [hsw, Bool.false_eq_true, if_false]
    rw [ih y ha.2 hy]

/-- Structure of the token the extractor returns: when the separator
`b :: t` occurs in `s`, the split has a second part `p1`, and the part of
`p1` before its first hyphen (`id`) sits in `s` immediately after an
occurrence of the separator, is hyphen-free, and is followed by nothing,
by a hyphen, or by another separator occurrence. -/
theorem token_decomp (b : Char) (t s : List Char)
    (h : containsL s (b :: t) = true) :
    ∃ p0 p1 ps id r,
      pySplit b t s = p0 :: p1 :: ps ∧
      (pySplit '-' [] p1).headD [] = id ∧
      s = p0 ++ (b :: t) ++ id ++ r ∧
      containsL id ['-'] = false ∧
      (r = [] ∨ (∃ q, r = '-' :: q) ∨ startsWithL r (b :: t) = true) := by
  have h2 := pySplit_two b t s h
  obtain ⟨p0, p1, ps, hps⟩ : ∃ p0 p1 ps, pySplit b t s = p0 :: p1 :: ps := by
    cases hsp : pySplit b t s with
    | nil => rw [hsp] at h2; simp at h2
    | cons a l =>
      cases l with
      | nil => rw [hsp] at h2; simp at h2
      | cons a2 l2 => exact ⟨a, a2, l2, rfl⟩
  have hjoin := joinSep_pySplit b t s
  rw [hps] at hjoin
  obtain ⟨r1, hr1, hr2, hr3⟩ := pySplit_head '-' [] p1
  set idv := (pySplit '-' [] p1).headD [] with hidv
  cases ps with
  | nil =>
    refine ⟨p0, p1, [], idv, r1, hps, hidv.symm, ?_, hr2, ?_⟩
    · rw [← hjoin]
      show p0 ++ (b :: t) ++ p1 = _
      rw [hr1]
      simp [List.append_assoc]
    · rcases hr3 with rfl | hsw
      · exact Or.inl rfl
      · rw [startsWithL_iff] at hsw
        obtain ⟨q, rfl⟩ := hsw
        exact Or.inr (Or.inl ⟨q, rfl⟩)
  | cons z zs =>
    refine ⟨p0, p1, z :: zs, idv,
      r1 ++ ((b :: t) ++ joinSep (b :: t) (z :: zs)), hps, hidv.symm, ?_, hr2, ?_⟩
    · rw [← hjoin]
      show p0 ++ (b :: t) ++ (p1 ++ (b :: t) ++ joinSep (b :: t) (z :: zs)) = _
      rw [hr1]
      simp [List.append_assoc]
    · rcases hr3 with rfl | hsw
      · refine Or.inr (Or.inr ?_)
        rw [List.nil_append, startsWithL_iff]
        exact ⟨joinSep (b :: t) (z :: zs), rfl⟩
      · rw [startsWithL_iff] at hsw
        obtain ⟨q, rfl⟩ := hsw
        exact Or.inr (Or.inl ⟨q ++ ((b :: t) ++ joinSep (b :: t) (z :: zs)), by simp⟩)

theorem roundHalfEven_nonneg (q : ℚ) (h : 0 < q) : 0 ≤ roundHalfEven q := by
  have hf : (0 : ℤ) ≤ ⌊q⌋ := Int.floor_nonneg.mpr h.le
  unfold roundHalfEven
  rw [ratFloor_eq]
  split_ifs <;> omega

/-- The rounded value is within half a unit of the input: `roundHalfEven`
is a nearest-integer rounding. -/
theorem roundHalfEven_close (q : ℚ) : |(roundHalfEven q : ℚ) - q| ≤ 1/2 := by
  unfold roundHalfEven
  rw [ratFloor_eq]
  have h1 : (⌊q⌋ : ℚ) ≤ q := Int.floor_le q
  have h2 : q < ⌊q⌋ + 1 := Int.lt_floor_add_one q
  split_ifs with ha hb hc <;>
    · rw [abs_le]
      constructor <;> push_cast <;> linarith

/-- Movie arm when the movie is absent and the identifier parses as an
integer: lookup date kept, status decided by the add outcome. -/
theorem handle_movie_eq_empty (w : World) (tmdb_id : String)
    (hm : w.radarrMovies tmdb_id = []) (hv : pyIntValid tmdb_id.toList = true) :
    handle_movie w tmdb_id = Except.ok
      ([ApiCall.radarrGet tmdb_id, ApiCall.radarrLookup tmdb_id,
        ApiCall.radarrAdd tmdb_id],
        (if w.radarrAddCode tmdb_id == 201 then "Monitored" else "Failed to Add"),
        (if w.radarrLookupCode tmdb_id == 200
          then format_date (w.radarrLookupRelease tmdb_id) else "")) := by
  unfold handle_movie get_radarr_status add_to_radarr
  rw [hm, hv]
  simp

/-- Movie arm when the movie is absent and the identifier does not parse
as an integer: `int(tmdb_id)` raises and the run aborts. -/
theorem handle_movie_eq_empty_invalid (w : World) (tmdb_id : String)
    (hm : w.radarrMovies tmdb_id = []) (hv : pyIntValid tmdb_id.toList = false) :
    handle_movie w tmdb_id = Except.error () := by
  unfold handle_movie get_radarr_status add_to_radarr
  rw [hm, hv]
  simp

/-- Movie arm when the movie is already in Radarr: no lookup, no add. -/
theorem handle_movie_eq_present (w : World) (tmdb_id : String) (m : MovieEntry)
    (ms : List MovieEntry) (hm : w.radarrMovies tmdb_id = m :: ms) :
    handle_movie w tmdb_id = Except.ok ([ApiCall.radarrGet tmdb_id],
      (if m.hasFile then "Downloaded" else "Monitored"),
      format_date m.digitalRelease) := by
  unfold handle_movie get_radarr_status
  rw [hm]
  simp

/-- Series arm when the Sonarr lookup has no match: "Not Found", no add. -/
theorem handle_tv_eq_nolookup (w : World) (tmdb_id : String)
    (hl : w.sonarrLookup tmdb_id = []) :
    handle_tv w tmdb_id = ([ApiCall.sonarrLookup tmdb_id], "Not Found", "") := by
  unfold handle_tv get_sonarr_status
  rw [hl]
  simp

/-- Series arm when the lookup matches but the series is not in the
inventory: an add is attempted and the first-aired date kept. -/
theorem handle_tv_eq_noseries (w : World) (tmdb_id : String)
    (e : SeriesLookupEntry) (es : List SeriesLookupEntry)
    (hl : w.sonarrLookup tmdb_id = e :: es)
    (hs : w.sonarrSeries e.tvdbId = []) :
    handle_tv w tmdb_id =
      ([ApiCall.sonarrLookup tmdb_id, ApiCall.sonarrSeriesGet e.tvdbId]
          ++ (add_to_sonarr w tmdb_id).1,
        (if (add_to_sonarr w tmdb_id).2 then "Monitored" else "Failed to Add"),
        format_date e.firstAired) := by
  unfold handle_tv get_sonarr_status
  simp only [hl]
  simp only [hs]
  simp

/-- Series arm when the series is in the inventory: status from the
completion percentage, no add. -/
theorem handle_tv_eq_present (w : World) (tmdb_id : String)
    (e : SeriesLookupEntry) (es : List SeriesLookupEntry)
    (s : SeriesEntry) (ss : List SeriesEntry)
    (hl : w.sonarrLookup tmdb_id = e :: es)
    (hs : w.sonarrSeries e.tvdbId = s :: ss) :
    handle_tv w tmdb_id =
      ([ApiCall.sonarrLookup tmdb_id, ApiCall.sonarrSeriesGet e.tvdbId],
        (if ((s.statistics.getD { percentOfEpisodes := none }).percentOfEpisodes).getD 0 = 100
          then "Downloaded"
          else if ((s.statistics.getD { percentOfEpisodes := none }).percentOfEpisodes).getD 0 > 0
          then "Partial (" ++ toString (roundHalfEven
            (((s.statistics.getD { percentOfEpisodes := none }).percentOfEpisodes).getD 0)) ++ "%)"
          else "Monitored"),
        format_date e.firstAired) := by
  unfold handle_tv get_sonarr_status
  simp only [hl]
  simp only [hs]
  simp

/-- C2 counterexample: on `themoviedb.org/movie/123/credits` the extractor
returns `"123/credits"`, not the numeric token `"123"`: the returned token
is not delimited by a path boundary and is not validated as numeric
(it contains the non-digit `'/'`), contradicting the claim's contract. -/
theorem C2_counterexample :
    getTmdbIdL "themoviedb.org/movie/123/credits".toList =
      Except.ok (some "123/credits".toList) ∧
    "123/credits".toList ≠ "123".toList ∧
    ¬(∀ c ∈ "123/credits".toList, c.isDigit = true) := by
  refine ⟨by decide, by decide, ?_⟩
  intro h
  exact absurd (h '/' (by decide)) (by decide)

/-- C2 (amended): extraction never raises; it yields no identifier exactly
when neither marker occurs; and when the movie marker occurs the result is
the hyphen-free token sitting immediately after an occurrence of
`'/movie/'` in the URL, followed by nothing, by a hyphen, or by another
`'/movie/'` occurrence — the token is not validated as numeric and a path
boundary does not delimit it (likewise for the TV marker, which is tried
only when the movie marker is absent). -/
theorem C2_extractor_amended (url : List Char) :
    (∃ r, getTmdbIdL url = Except.ok r) ∧
    (containsL url movieMark = false → containsL url tvMark = false →
      getTmdbIdL url = Except.ok none) ∧
    (containsL url movieMark = true →
      ∃ id r pre, getTmdbIdL url = Except.ok (some id) ∧
        url = pre ++ "/movie/".toList ++ id ++ r ∧
        containsL id ['-'] = false ∧
        (r = [] ∨ (∃ q, r = '-' :: q) ∨
          startsWithL r ("/movie/".toList) = true)) ∧
    (containsL url movieMark = false → containsL url tvMark = true →
      ∃ id r pre, getTmdbIdL url = Except.ok (some id) ∧
        url = pre ++ "/tv/".toList ++ id ++ r ∧
        containsL id ['-'] = false ∧
        (r = [] ∨ (∃ q, r = '-' :: q) ∨
          startsWithL r ("/tv/".toList) = true)) := by
  have hmovEq : ('/' :: "movie/".toList) = "/movie/".toList := by decide
  have htvEq : ('/' :: "tv/".toList) = "/tv/".toList := by decide
  have hmovie : containsL url movieMark = true →
      ∃ id r pre, getTmdbIdL url = Except.ok (some id) ∧
        url = pre ++ "/movie/".toList ++ id ++ r ∧
        containsL id ['-'] = false ∧
        (r = [] ∨ (∃ q, r = '-' :: q) ∨
          startsWithL r ("/movie/".toList) = true) := by
    intro hmov
    have hocc : containsL url ('/' :: "movie/".toList) = true := by
      refine containsL_of_append url "themoviedb.org".toList _ ?_
      rw [show "themoviedb.org".toList ++ '/' :: "movie/".toList = movieMark
        from by decide]
      exact hmov
    obtain ⟨p0, p1, ps, id, r, hps, hid, hdecomp, hnohyph, hr⟩ :=
      token_decomp '/' "movie/".toList url hocc
    refine ⟨id, r, p0, ?_, ?_, hnohyph, ?_⟩
    · rw [getTmdbIdL, if_pos hmov, hps]
      exact congrArg (fun x => Except.ok (some x)) hid
    · rw [hdecomp, hmovEq]
    · rw [← hmovEq]; exact hr
  have htv : containsL url movieMark = false → containsL url tvMark = true →
      ∃ id r pre, getTmdbIdL url = Except.ok (some id) ∧
        url = pre ++ "/tv/".toList ++ id ++ r ∧
        containsL id ['-'] = false ∧
        (r = [] ∨ (∃ q, r = '-' :: q) ∨
          startsWithL r ("/tv/".toList) = true) := by
    intro hm ht
    have hocc : containsL url ('/' :: "tv/".toList) = true := by
      refine containsL_of_append url "themoviedb.org".toList _ ?_
      rw [show "themoviedb.org".toList ++ '/' :: "tv/".toList = tvMark
        from by decide]
      exact ht
    obtain ⟨p0, p1, ps, id, r, hps, hid, hdecomp, hnohyph, hr⟩ :=
      token_decomp '/' "tv/".toList url hocc
    refine ⟨id, r, p0, ?_, ?_, hnohyph, ?_⟩
    · rw [getTmdbIdL, if_neg (by simp [hm]), if_pos ht, hps]
      exact congrArg (fun x => Except.ok (some x)) hid
    · rw [hdecomp, htvEq]
    · rw [← htvEq]; exact hr
  have hnone : containsL url movieMark = false → containsL url tvMark = false →
      getTmdbIdL url = Except.ok none := by
    intro h1 h2
    rw [getTmdbIdL, if_neg (by simp [h1]), if_neg (by simp [h2])]
  refine ⟨?_, hnone, hmovie, htv⟩
  cases hm : containsL url movieMark
  · cases ht : containsL url tvMark
    · exact ⟨none, hnone hm ht⟩
    · obtain ⟨id, r, pre, hok, _⟩ := htv hm ht
      exact ⟨some id, hok⟩
  · obtain ⟨id, r, pre, hok, _⟩ := hmovie hm
    exact ⟨some id, hok⟩

/-- C2 witness: the amended extractor contract evaluated on
`themoviedb.org/movie/77-x`. -/
theorem C2_extractor_witness :
    (∃ r, getTmdbIdL "themoviedb.org/movie/77-x".toList = Except.ok r) ∧
    (∃ id r pre,
      getTmdbIdL "themoviedb.org/movie/77-x".toList = Except.ok (some id) ∧
      "themoviedb.org/movie/77-x".toList = pre ++ "/movie/".toList ++ id ++ r ∧
      containsL id ['-'] = false ∧
      (r = [] ∨ (∃ q, r = '-' :: q) ∨
        startsWithL r ("/movie/".toList) = true)) :=
  ⟨(C2_extractor_amended _).1, (C2_extractor_amended _).2.2.1 (by decide)⟩

/-- C3 counterexample: for the read range `Sheet1!D2:D` the code derives
`Sheet1!B2:C`, whereas the columns adjacent to the read column `D` would
be `E` and `F` (`Sheet1!E2:F`): the write-back columns are hard-coded to
`B` and `C`, not shifted relative to the read column. -/
theorem C3_counterexample :
    get_output_range "Sheet1!D2:D" = Except.ok "Sheet1!B2:C" ∧
    spec_output_range "Sheet1" 'D' "2" = "Sheet1!E2:F" ∧
    ("Sheet1!B2:C" : String) ≠ "Sheet1!E2:F" := by
  refine ⟨by decide, by decide, by decide⟩

/-- C3 (amended): for a read range of the form `Sheet!<col><row>:<col>`
(sheet name free of `'!'`, column letters that are not digits and not
`'!'`/`':'`, digit-only row), the derived write-back range keeps the sheet
name and the start row but always uses columns `B` and `C`, whatever the
read column was. -/
theorem C3_output_range_amended (sheet colStr row endcol : List Char)
    (hsheet : '!' ∉ sheet)
    (hcolD : ∀ c ∈ colStr, c.isDigit = false)
    (hcolB : '!' ∉ colStr) (hcolC : ':' ∉ colStr)
    (hrow : ∀ c ∈ row, c.isDigit = true)
    (hendB : '!' ∉ endcol) (hendC : ':' ∉ endcol) :
    get_output_range (String.mk (sheet ++ '!' :: (colStr ++ row ++ ':' :: endcol))) =
      Except.ok (String.mk (sheet ++ '!' :: 'B' :: row ++ [':', 'C'])) := by
  have hrowB : '!' ∉ row := fun hc => absurd (hrow _ hc) (by decide)
  have hrowC : ':' ∉ row := fun hc => absurd (hrow _ hc) (by decide)
  have hex : '!' ∉ colStr ++ row ++ ':' :: endcol := by
    intro hmem
    rcases List.mem_append.mp hmem with h1 | h2
    · rcases List.mem_append.mp h1 with h3 | h4
      · exact hcolB h3
      · exact hrowB h4
    · rcases List.mem_cons.mp h2 with h5 | h6
      · exact absurd h5 (by decide)
      · exact hendB h6
  have hc2 : ':' ∉ colStr ++ row := by
    intro hmem
    rcases List.mem_append.mp hmem with h1 | h2
    · exact hcolC h1
    · exact hrowC h2
  unfold get_output_range
  rw [show (String.mk (sheet ++ '!' :: (colStr ++ row ++ ':' :: endcol))).toList
    = sheet ++ '!' :: (colStr ++ row ++ ':' :: endcol) from rfl]
  rw [pySplit_single_pair '!' sheet _ hsheet hex]
  show Except.ok (String.mk (sheet ++ '!' :: 'B' ::
      ((pySplit ':' [] (colStr ++ row ++ ':' :: endcol)).headD []).filter Char.isDigit
      ++ [':', 'C'])) = _
  rw [pySplit_single_pair ':' _ _ hc2 hendC]
  simp only [List.headD_cons]
  rw [List.filter_append]
  rw [List.filter_eq_nil_iff.mpr (by intro a ha; simp [hcolD a ha]),
    List.filter_eq_self.mpr (by intro a ha; simp [hrow a ha])]
  rfl

/-- C3 witness: the amended range derivation evaluated on
`Sheet1!D2:D`, giving `Sheet1!B2:C`. -/
theorem C3_output_range_witness :
    get_output_range "Sheet1!D2:D" = Except.ok "Sheet1!B2:C" := by
  have h := C3_output_range_amended "Sheet1".toList ['D'] ['2'] ['D']
    (by decide) (by decide) (by decide) (by decide) (by decide) (by decide)
    (by decide)
  exact h

/-- C4: for a movie identifier (an integer-parseable string) absent from
the Radarr inventory, with a successful metadata lookup, the output date
is the truncated `digitalRelease` from the lookup — independent of the add
outcome — and the status is "Monitored" exactly when the add returns 201,
"Failed to Add" otherwise. -/
theorem C4_movie_absent (w : World) (tmdb_id : String)
    (hvalid : pyIntValid tmdb_id.toList = true)
    (habsent : w.radarrMovies tmdb_id = [])
    (hlookup : w.radarrLookupCode tmdb_id = 200) :
    handle_movie w tmdb_id = Except.ok
      ([ApiCall.radarrGet tmdb_id, ApiCall.radarrLookup tmdb_id,
        ApiCall.radarrAdd tmdb_id],
        (if w.radarrAddCode tmdb_id == 201 then "Monitored" else "Failed to Add"),
        format_date (w.radarrLookupRelease tmdb_id)) := by
  rw [handle_movie_eq_empty w tmdb_id habsent hvalid, hlookup]
  simp

/-- Movie-library world for the C4 witness: empty inventory, lookup
succeeds with a release date, add succeeds with 201. -/
def wMovieAdd : World :=
  { wEmpty with
    radarrLookupCode := fun _ => 200
    radarrLookupRelease := fun _ => some "2024-03-15T00:00:00Z"
    radarrAddCode := fun _ => 201 }

/-- C4 witness: absent movie, successful add: status "Monitored" and the
looked-up date survives. -/
theorem C4_movie_absent_witness :
    handle_movie wMovieAdd "603" = Except.ok
      ([ApiCall.radarrGet "603", ApiCall.radarrLookup "603",
        ApiCall.radarrAdd "603"], "Monitored", "2024-03-15") := by
  have h := C4_movie_absent wMovieAdd "603" (by decide) rfl rfl
  rw [h]
  decide

/-- C5: for a movie already in the Radarr inventory, the status is
"Downloaded" exactly when the entry's `hasFile` flag is set and
"Monitored" otherwise, the date is the entry's truncated
`digitalRelease`, empty when that field is absent, and no add happens
(the only call is the inventory query). -/
theorem C5_movie_present (w : World) (tmdb_id : String) (m : MovieEntry)
    (ms : List MovieEntry) (hpresent : w.radarrMovies tmdb_id = m :: ms) :
    handle_movie w tmdb_id = Except.ok ([ApiCall.radarrGet tmdb_id],
      (if m.hasFile then "Downloaded" else "Monitored"),
      format_date m.digitalRelease) ∧
    (m.digitalRelease = none → format_date m.digitalRelease = "") := by
  refine ⟨handle_movie_eq_present w tmdb_id m ms hpresent, ?_⟩
  intro h
  rw [h]
  rfl

/-- Movie-library world for the C5 witness: the movie is tracked, has a
file, and carries a digital release timestamp. -/
def wMovieHas : World :=
  { wEmpty with
    radarrMovies := fun _ =>
      [{ hasFile := true, digitalRelease := some "2024-03-15T00:00:00Z" }] }

/-- C5 witness: tracked movie with a file: status exactly "Downloaded"
and the truncated release date. -/
theorem C5_movie_present_witness :
    handle_movie wMovieHas "603" = Except.ok
      ([ApiCall.radarrGet "603"], "Downloaded", "2024-03-15") := by
  have h := (C5_movie_present wMovieHas "603"
    { hasFile := true, digitalRelease := some "2024-03-15T00:00:00Z" } [] rfl).1
  rw [h]
  decide

/-- C6: when the Sonarr external-id lookup returns no result, the row gets
status "Not Found" with an empty date, and the only call issued is the
lookup itself — in particular no add request (and no Radarr call). -/
theorem C6_series_not_found (w : World) (tmdb_id : String)
    (h : w.sonarrLookup tmdb_id = []) :
    handle_tv w tmdb_id = ([ApiCall.sonarrLookup tmdb_id], "Not Found", "") ∧
    (∀ j, ApiCall.sonarrAdd j ∉ (handle_tv w tmdb_id).1) ∧
    (∀ j, ApiCall.radarrAdd j ∉ (handle_tv w tmdb_id).1) := by
  have he := handle_tv_eq_nolookup w tmdb_id h
  refine ⟨he, ?_, ?_⟩ <;> intro j <;> rw [he] <;> simp

/-- C6 witness: empty Sonarr lookup: "Not Found", empty date, lookup-only
trace. -/
theorem C6_series_not_found_witness :
    handle_tv wEmpty "1396" = ([ApiCall.sonarrLookup "1396"], "Not Found", "") ∧
    ApiCall.sonarrAdd "1396" ∉ (handle_tv wEmpty "1396").1 :=
  ⟨(C6_series_not_found wEmpty "1396" rfl).1,
    (C6_series_not_found wEmpty "1396" rfl).2.1 "1396"⟩

/-- C10: when the extractor yields the empty-string identifier (a
recognized marker immediately followed by a hyphen, the end of the string,
or another marker occurrence), Python's falsy test treats it like `None`:
the row's output is `["", ""]` and no request at all is issued for it. -/
theorem C10_empty_token (w : World) (url : String)
    (h : get_tmdb_id url = some "") :
    process_link w [url] = Except.ok ([], ["", ""]) := by
  show (match get_tmdb_id url with
    | none => Except.ok ([], ["", ""])
    | some tmdb_id =>
      if tmdb_id = "" then Except.ok ([], ["", ""])
      else if strContains url "themoviedb.org/movie/" then
        match handle_movie w tmdb_id with
        | Except.error e => Except.error e
        | Except.ok (calls, status, date) => Except.ok (calls, [status, date])
      else if strContains url "themoviedb.org/tv/" then
        match handle_tv w tmdb_id with
        | (calls, status, date) => Except.ok (calls, [status, date])
      else Except.ok ([], ["", ""])) = Except.ok ([], ["", ""])
  rw [h]
  simp

/-- C10 witness: `themoviedb.org/movie/` extracts `some ""` and the row is
written as blank-blank with no library call. -/
theorem C10_empty_token_witness :
    get_tmdb_id "themoviedb.org/movie/" = some "" ∧
    process_link wEmpty ["themoviedb.org/movie/"] = Except.ok ([], ["", ""]) :=
  ⟨by decide, C10_empty_token wEmpty "themoviedb.org/movie/" (by decide)⟩

/-- C7: for a series present in the inventory with completion percentage
`pct`: 100 gives "Downloaded"; strictly between 0 and 100 gives
"Partial (N%)" where `N` is within half a percent of `pct` (nearest-
integer rounding, ties to even, never negative); and 0 gives
"Monitored". -/
theorem C7_series_pct (w : World) (tmdb_id : String)
    (e : SeriesLookupEntry) (es : List SeriesLookupEntry)
    (s : SeriesEntry) (ss : List SeriesEntry) (pct : ℚ)
    (hl : w.sonarrLookup tmdb_id = e :: es)
    (hs : w.sonarrSeries e.tvdbId = s :: ss)
    (hp : ((s.statistics.getD { percentOfEpisodes := none }).percentOfEpisodes).getD 0
      = pct) :
    (pct = 100 → (handle_tv w tmdb_id).2.1 = "Downloaded") ∧
    (0 < pct → pct < 100 →
      (handle_tv w tmdb_id).2.1 =
        "Partial (" ++ toString (roundHalfEven pct) ++ "%)" ∧
      |(roundHalfEven pct : ℚ) - pct| ≤ 1/2 ∧ 0 ≤ roundHalfEven pct) ∧
    (pct = 0 → (handle_tv w tmdb_id).2.1 = "Monitored") := by
  have he := handle_tv_eq_present w tmdb_id e es s ss hl hs
  rw [hp] at he
  refine ⟨?_, ?_, ?_⟩
  · intro h100
    rw [he]
    simp [h100]
  · intro hpos hlt
    rw [he]
    have hne : ¬pct = 100 := by intro hc; rw [hc] at hlt; exact absurd hlt (by norm_num)
    simp only [hne, if_false, hpos, if_true, gt_iff_lt]
    exact ⟨trivial, roundHalfEven_close pct, roundHalfEven_nonneg pct hpos⟩
  · intro h0
    rw [he]
    simp [h0]

/-- Sonarr world for the C7 witness: the series is tracked with a
45.6% completion percentage. -/
def wSeries456 : World :=
  { wEmpty with
    sonarrLookup := fun _ =>
      [{ title := "T", firstAired := some "2008-01-20T00:00:00Z", tvdbId := 7 }]
    sonarrSeries := fun _ =>
      [{ statistics := some { percentOfEpisodes := some (456/10) } }] }

/-- C7 witness: completion 45.6% yields exactly "Partial (46%)". -/
theorem C7_series_pct_witness :
    (handle_tv wSeries456 "1396").2.1 = "Partial (46%)" := by
  have h := (C7_series_pct wSeries456 "1396"
    { title := "T", firstAired := some "2008-01-20T00:00:00Z", tvdbId := 7 } []
    { statistics := some { percentOfEpisodes := some (456/10) } } []
    (456/10) rfl rfl rfl).2.1 (by norm_num) (by norm_num)
  rw [h.1]
  have h46 : roundHalfEven (456/10 : ℚ) = 46 := by
    have hf : ⌊(456/10 : ℚ)⌋ = 45 := by
      rw [Int.floor_eq_iff]
      norm_num
    rw [roundHalfEven, ratFloor_eq, hf]
    norm_num
  rw [h46]
  decide

/-- C8: a spreadsheet read failure turns the run into a no-op — no
library call, no write-back, empty row set; and a spreadsheet write
failure is absorbed inside `update_sheet_statuses`, so the whole outcome
of the run (calls already made, including adds, and the computed rows) is
identical whether the write fails or succeeds. -/
theorem process_link_frame (w : World) (x : Except Unit Unit)
    (link : List String) :
    process_link { w with writeOutcome := x } link = process_link w link := rfl

theorem process_links_frame (w : World) (x : Except Unit Unit) :
    ∀ links, process_links { w with writeOutcome := x } links =
      process_links w links := by
  intro links
  induction links with
  | nil => rfl
  | cons l r ih =>
    unfold process_links
    rw [process_link_frame w x l, ih]

theorem C8_sheet_errors (w : World) :
    (w.sheetRead = Except.error () → main_run w = Except.ok ([], [])) ∧
    (∀ e : Unit, main_run { w with writeOutcome := Except.error e } = main_run w) := by
  constructor
  · intro h
    unfold main_run get_google_sheets_data
    rw [h]
    rfl
  · intro e
    unfold main_run
    simp only [show get_google_sheets_data { w with writeOutcome := Except.error e }
        = get_google_sheets_data w from rfl,
      process_links_frame w (Except.error e),
      show ∀ rows, (update_sheet_statuses { w with writeOutcome := Except.error e }
        rows).1 = (update_sheet_statuses w rows).1 from fun _ => rfl]

/-- World for the C8 witness: the spreadsheet read raises `HttpError`. -/
def wReadFail : World := { wEmpty with sheetRead := Except.error () }

/-- C8 witness: a failing read yields the no-op run (no calls, no rows),
and a failing write changes nothing about the run's outcome. -/
theorem C8_sheet_errors_witness :
    main_run wReadFail = Except.ok ([], []) ∧
    main_run { wReadFail with writeOutcome := Except.error () } =
      main_run wReadFail :=
  ⟨(C8_sheet_errors wReadFail).1 rfl, (C8_sheet_errors wReadFail).2 ()⟩

/-- Status vocabulary of the script's output rows: blank, one of the four
fixed labels, or a partial-percentage label with a nonnegative whole
number. -/
def vocabOk (s : String) : Prop :=
  s = "" ∨ s = "Downloaded" ∨ s = "Monitored" ∨ s = "Failed to Add" ∨
    s = "Not Found" ∨ ∃ n : ℤ, 0 ≤ n ∧ s = "Partial (" ++ toString n ++ "%)"

/-- Every successfully processed row is a two-string pair whose status
component lies in the fixed vocabulary. -/
theorem process_link_vocab (w : World) (link : List String)
    (calls : List ApiCall) (row : List String)
    (h : process_link w link = Except.ok (calls, row)) :
    ∃ st d, row = [st, d] ∧ vocabOk st := by
  cases link with
  | nil =>
    simp only [process_link, Except.ok.injEq, Prod.mk.injEq] at h
    exact ⟨"", "", h.2.symm, Or.inl rfl⟩
  | cons url urest =>
    rw [show process_link w (url :: urest) = (match get_tmdb_id url with
      | none => Except.ok ([], ["", ""])
      | some tmdb_id =>
        if tmdb_id = "" then Except.ok ([], ["", ""])
        else if strContains url "themoviedb.org/movie/" then
          match handle_movie w tmdb_id with
          | Except.error e => Except.error e
          | Except.ok (calls, status, date) => Except.ok (calls, [status, date])
        else if strContains url "themoviedb.org/tv/" then
          match handle_tv w tmdb_id with
          | (calls, status, date) => Except.ok (calls, [status, date])
        else Except.ok ([], ["", ""])) from rfl] at h
    cases hid : get_tmdb_id url with
    | none =>
      rw [hid] at h
      simp only [Except.ok.injEq, Prod.mk.injEq] at h
      exact ⟨"", "", h.2.symm, Or.inl rfl⟩
    | some tid =>
      rw [hid] at h
      simp only [] at h
      by_cases htid : tid = ""
      · rw [if_pos htid] at h
        simp only [Except.ok.injEq, Prod.mk.injEq] at h
        exact ⟨"", "", h.2.symm, Or.inl rfl⟩
      · rw [if_neg htid] at h
        by_cases hmov : strContains url "themoviedb.org/movie/" = true
        · rw [if_pos hmov] at h
          cases hmv : w.radarrMovies tid with
          | nil =>
            cases hv : pyIntValid tid.toList
            · rw [handle_movie_eq_empty_invalid w tid hmv hv] at h
              exact absurd h (by simp)
            · rw [handle_movie_eq_empty w tid hmv hv] at h
              simp only [Except.ok.injEq, Prod.mk.injEq] at h
              refine ⟨_, _, h.2.symm, ?_⟩
              cases w.radarrAddCode tid == 201 <;>
                simp [vocabOk]
          | cons m ms =>
            rw [handle_movie_eq_present w tid m ms hmv] at h
            simp only [Except.ok.injEq, Prod.mk.injEq] at h
            refine ⟨_, _, h.2.symm, ?_⟩
            cases m.hasFile <;> simp [vocabOk]
        · rw [if_neg hmov] at h
          by_cases htv : strContains url "themoviedb.org/tv/" = true
          · rw [if_pos htv] at h
            cases hl : w.sonarrLookup tid with
            | nil =>
              rw [handle_tv_eq_nolookup w tid hl] at h
              simp only [Except.ok.injEq, Prod.mk.injEq] at h
              exact ⟨_, _, h.2.symm, Or.inr (Or.inr (Or.inr (Or.inr (Or.inl rfl))))⟩
            | cons e es =>
              cases hs : w.sonarrSeries e.tvdbId with
              | nil =>
                rw [handle_tv_eq_noseries w tid e es hl hs] at h
                simp only [Except.ok.injEq, Prod.mk.injEq] at h
                refine ⟨_, _, h.2.symm, ?_⟩
                cases (add_to_sonarr w tid).2 <;> simp [vocabOk]
              | cons s ss =>
                rw [handle_tv_eq_present w tid e es s ss hl hs] at h
                simp only [Except.ok.injEq, Prod.mk.injEq] at h
                refine ⟨_, _, h.2.symm, ?_⟩
                set pct := ((s.statistics.getD
                  { percentOfEpisodes := none }).percentOfEpisodes).getD 0 with hpct
                by_cases h100 : pct = 100
                · simp [vocabOk, h100]
                · by_cases hpos : pct > 0
                  · simp only [if_neg h100, if_pos hpos]
                    exact Or.inr (Or.inr (Or.inr (Or.inr (Or.inr
                      ⟨roundHalfEven pct, roundHalfEven_nonneg pct hpos, rfl⟩))))
                  · simp [vocabOk, h100, hpos]
          · rw [if_neg htv] at h
            simp only [Except.ok.injEq, Prod.mk.injEq] at h
            exact ⟨"", "", h.2.symm, Or.inl rfl⟩

/-- C9: for every world (all library responses) and input, every row of a
completed run is a pair of exactly two strings whose status belongs to the
fixed vocabulary extended with nonnegative whole-percent Partial labels. -/
theorem C9_vocab (w : World) (links : List (List String))
    (calls : List ApiCall) (rows : List (List String))
    (h : process_links w links = Except.ok (calls, rows)) :
    ∀ r ∈ rows, ∃ st d, r = [st, d] ∧ vocabOk st := by
  induction links generalizing calls rows with
  | nil =>
    simp only [process_links, Except.ok.injEq, Prod.mk.injEq] at h
    rw [← h.2]
    intro r hr
    exact absurd hr (by simp)
  | cons link rest ih =>
    rw [show process_links w (link :: rest) = (match process_link w link with
      | Except.error e => Except.error e
      | Except.ok (calls, row) =>
        match process_links w rest with
        | Except.error e => Except.error e
        | Except.ok (calls2, rows) =>
          Except.ok (calls ++ calls2, row :: rows)) from rfl] at h
    cases hpl : process_link w link with
    | error e => rw [hpl] at h; exact absurd h (by simp)
    | ok cr =>
      obtain ⟨c1, row⟩ := cr
      rw [hpl] at h
      cases hpls : process_links w rest with
      | error e => rw [hpls] at h; exact absurd h (by simp)
      | ok crr =>
        obtain ⟨c2, rows'⟩ := crr
        rw [hpls] at h
        simp only [Except.ok.injEq, Prod.mk.injEq] at h
        rw [← h.2]
        intro r hr
        rcases List.mem_cons.mp hr with rfl | hr'
        · exact process_link_vocab w link c1 r hpl
        · exact ih c2 rows' hpls r hr'

/-- C9 witness: in a concrete completed run the first output row is a
two-string pair whose status ("Not Found") is in the vocabulary. -/
theorem C9_vocab_witness :
    ∃ st d, (["Not Found", ""] : List String) = [st, d] ∧ vocabOk st := by
  have h : process_links wEmpty [["themoviedb.org/tv/9"], []] =
      Except.ok ([ApiCall.sonarrLookup "9"], [["Not Found", ""], ["", ""]]) := by
    decide
  exact C9_vocab wEmpty [["themoviedb.org/tv/9"], []] _ _ h
    ["Not Found", ""] (by decide)

/-- C1 (amended): whenever the per-row loop completes without raising —
the only exception source being `int(tmdb_id)` inside `add_to_radarr` on
a non-numeric extracted movie identifier absent from the inventory — the
output has exactly one row per input row, and every blank input row and
every row whose URL yields no identifier produces `["", ""]` at the same
position. -/
theorem C1_padding_amended (w : World) (links : List (List String))
    (calls : List ApiCall) (rows : List (List String))
    (h : process_links w links = Except.ok (calls, rows)) :
    rows.length = links.length ∧
    ∀ i : Nat,
      (links[i]? = some [] ∨
        ∃ url urest, links[i]? = some (url :: urest) ∧ get_tmdb_id url = none) →
      rows[i]? = some ["", ""] := by
  induction links generalizing calls rows with
  | nil =>
    simp only [process_links, Except.ok.injEq, Prod.mk.injEq] at h
    rw [← h.2]
    exact ⟨rfl, fun i hi => by rcases hi with hi | ⟨url, urest, hi, _⟩ <;> simp at hi⟩
  | cons link rest ih =>
    rw [show process_links w (link :: rest) = (match process_link w link with
      | Except.error e => Except.error e
      | Except.ok (calls, row) =>
        match process_links w rest with
        | Except.error e => Except.error e
        | Except.ok (calls2, rows) =>
          Except.ok (calls ++ calls2, row :: rows)) from rfl] at h
    cases hpl : process_link w link with
    | error e => rw [hpl] at h; exact absurd h (by simp)
    | ok cr =>
      obtain ⟨c1, row⟩ := cr
      rw [hpl] at h
      cases hpls : process_links w rest with
      | error e => rw [hpls] at h; exact absurd h (by simp)
      | ok crr =>
        obtain ⟨c2, rows'⟩ := crr
        rw [hpls] at h
        simp only [Except.ok.injEq, Prod.mk.injEq] at h
        obtain ⟨ihlen, ihpos⟩ := ih c2 rows' hpls
        rw [← h.2]
        refine ⟨by simp [ihlen], ?_⟩
        intro i hi
        cases i with
        | zero =>
          have hrow : row = ["", ""] := by
            have hblank : process_link w link = Except.ok ([], ["", ""]) := by
              rcases hi with hi | ⟨url, urest, hi, hnone⟩
              · have hl : link = [] := by simpa using hi
                rw [hl]
                rfl
              · have hl : link = url :: urest := by simpa using hi
                rw [hl]
                show (match get_tmdb_id url with
                  | none => Except.ok ([], ["", ""])
                  | some tmdb_id =>
                    if tmdb_id = "" then Except.ok ([], ["", ""])
                    else if strContains url "themoviedb.org/movie/" then
                      match handle_movie w tmdb_id with
                      | Except.error e => Except.error e
                      | Except.ok (calls, status, date) =>
                        Except.ok (calls, [status, date])
                    else if strContains url "themoviedb.org/tv/" then
                      match handle_tv w tmdb_id with
                      | (calls, status, date) => Except.ok (calls, [status, date])
                    else Except.ok ([], ["", ""])) = Except.ok ([], ["", ""])
                rw [hnone]
            rw [hblank] at hpl
            simp only [Except.ok.injEq, Prod.mk.injEq] at hpl
            exact hpl.2.symm
          simp [hrow]
        | succ n =>
          have hn := ihpos n (by simpa using hi)
          simpa using hn

/-- World for the C1 counterexample: the sheet holds a single movie URL
whose extracted identifier `x5` is not numeric, and the movie is not in
the Radarr inventory, so `add_to_radarr` evaluates `int("x5")` and the
run dies with `ValueError` before producing any output rows. -/
def wCrash : World :=
  { wEmpty with sheetRead := Except.ok [["themoviedb.org/movie/x5"]] }

/-- C1 counterexample: for this one-row input the orchestrator produces no
output row list at all (the run aborts), so it does not produce a list of
matching length. -/
theorem C1_counterexample :
    main_run wCrash = Except.error () ∧
    ¬∃ calls rows, main_run wCrash = Except.ok (calls, rows) ∧
      rows.length = 1 := by
  have h : main_run wCrash = Except.error () := by decide
  refine ⟨h, ?_⟩
  rintro ⟨calls, rows, hok, _⟩
  rw [h] at hok
  cases hok

/-- C1 witness: a blank row and an unparseable URL both give `["", ""]`,
and the output length matches the input length. -/
theorem C1_padding_witness :
    ∃ calls rows,
      process_links wEmpty [[], ["https://example.com/x"]] =
        Except.ok (calls, rows) ∧
      rows.length = 2 ∧ rows[0]? = some ["", ""] ∧ rows[1]? = some ["", ""] := by
  have h : process_links wEmpty [[], ["https://example.com/x"]] =
      Except.ok ([], [["", ""], ["", ""]]) := by decide
  have hc := C1_padding_amended wEmpty [[], ["https://example.com/x"]] [] 
    [["", ""], ["", ""]] h
  exact ⟨[], [["", ""], ["", ""]], h, hc.1,
    hc.2 0 (Or.inl (by decide)),
    hc.2 1 (Or.inr ⟨"https://example.com/x", [], by decide, by decide⟩)⟩
